import Mathlib

/-!
Verification of the neptune-gremlin connection library (src/neptune-gremlin.js).

The file shallowly embeds the data model and the algorithms of the source:
the property reconciliation `updateProperties`, the upsert `saveEdge`, the
deletions `deleteNode`/`deleteEdge`, the raw-result extraction of `search`
together with `nodeExists`, the retrying executor `query` with its
`errorFilter`, the close-notification handler registered in `connect`, and
the header routine `getHeaders`.  The remote graph engine is modelled as an
explicit graph state; element identifiers are unique in the engine, so a
traversal `g.V(id)` / `g.E(id)` addresses at most one element.
-/

namespace NeptuneGremlin

/-- JavaScript values as they occur in raw traversal results: `undefined`,
strings, numbers, booleans, arrays and plain objects (string-keyed maps). -/
inductive JsVal where
  | undef : JsVal
  | str : String → JsVal
  | num : Int → JsVal
  | boolean : Bool → JsVal
  | arr : List JsVal → JsVal
  | obj : List (String × JsVal) → JsVal

/-- A JavaScript object holding properties: an ordered association of keys to
values.  Objects produced by the driver have pairwise distinct keys. -/
abbrev PropMap := List (String × JsVal)

/-- Property access on a `PropMap`: the value at the first occurrence of the
key, if any. -/
def pmLookup (k : String) : PropMap → Option JsVal
  | [] => none
  | (k', v) :: rest => if k' = k then some v else pmLookup k rest

/-- The keys of a property map, in order. -/
def keysOf (ps : PropMap) : List String := ps.map Prod.fst

/-- The JavaScript `k in obj` test: the key is present among the object's
keys. -/
def jsIn (k : String) (ps : PropMap) : Bool := (pmLookup k ps).isSome

/-- Removal of every binding of a key, as performed by the traversal
`properties(ep).drop()`. -/
def dropKey (ps : PropMap) (k : String) : PropMap :=
  ps.filter (fun p => p.1 != k)

/-- Setting a property value.  The vertex branch of the source uses
`property(cardinality.single, k, v)` and the edge branch `property(k, v)`;
both replace the value stored at the key. -/
def setProp (ps : PropMap) (k : String) (v : JsVal) : PropMap :=
  dropKey ps k ++ [(k, v)]

/-- The first loop of `updateProperties` (lines 409-415): every key of the
current map that is not a key of `desired` is dropped, one at a time. -/
def removeAbsentKeys (desired : PropMap) : List String → PropMap → PropMap
  | [], cur => cur
  | ep :: rest, cur =>
      removeAbsentKeys desired rest (if jsIn ep desired then cur else dropKey cur ep)

/-- The second loop of `updateProperties` (lines 420-433): every binding of
the desired map is written, one at a time. -/
def setAllProps (cur : PropMap) : PropMap → PropMap
  | [] => cur
  | (k, v) :: rest => setAllProps (setProp cur k v) rest

/-- The net effect of `updateProperties` on the property map of the addressed
element: drop the keys missing from `props`, then write every desired
binding. -/
def reconcileProps (cur props : PropMap) : PropMap :=
  setAllProps (removeAbsentKeys props (keysOf cur) cur) props

/-- A vertex of the remote graph: identifier, label (the source stores the
joined label string) and single-cardinality properties. -/
structure Vertex where
  vid : String
  vlabel : String
  props : PropMap

/-- An edge of the remote graph.  `outV` and `inV` are the engine-level
out-vertex (tail) and in-vertex (head) identifiers. -/
structure GEdge where
  eid : String
  elabel : String
  outV : String
  inV : String
  props : PropMap

/-- The state of the remote graph engine. -/
structure Graph where
  vertices : List Vertex
  edges : List GEdge

/-- The function `updateProperties(id, g, props, isNode)` (lines 402-435).
The flag selects `g.V` or `g.E` (`const gve = isNode ? g.V : g.E`).  The
function reads the current property map of the element addressed by `id`
(`existingProps[0]`), drops every current key absent from `props`, and then
writes every binding of `props`.  When no element matches the identifier all
traversals are empty and the graph is unchanged. -/
def updateProperties (g : Graph) (id : String) (props : PropMap) : Bool → Graph
  | true =>
    match g.vertices.find? (fun v => v.vid == id) with
    | none => g
    | some v =>
        { g with vertices :=
            g.vertices.map (fun w =>
              if w.vid == id then { w with props := reconcileProps v.props props } else w) }
  | false =>
    match g.edges.find? (fun e => e.eid == id) with
    | none => g
    | some e =>
        { g with edges :=
            g.edges.map (fun w =>
              if w.eid == id then { w with props := reconcileProps e.props props } else w) }

/-- The property map of the element addressed by an identifier, if the
element exists. -/
def elementProps (g : Graph) (id : String) : Bool → Option PropMap
  | true => (g.vertices.find? (fun v => v.vid == id)).map Vertex.props
  | false => (g.edges.find? (fun e => e.eid == id)).map GEdge.props

@[simp]
theorem pmLookup_dropKey_self (ps : PropMap) (k : String) :
    pmLookup k (dropKey ps k) = none := by
  induction ps with
  | nil => rfl
  | cons p rest ih =>
      by_cases h : p.1 = k
      · simpa [dropKey, List.filter, h] using ih
      · simpa [dropKey, pmLookup, h] using ih

theorem pmLookup_dropKey_ne (ps : PropMap) (k k' : String) (h : k' ≠ k) :
    pmLookup k (dropKey ps k') = pmLookup k ps := by
  induction ps with
  | nil => rfl
  | cons p rest ih =>
      obtain ⟨k₁, v₁⟩ := p
      by_cases hp : k₁ = k'
      · subst hp
        simpa [dropKey, List.filter_cons, pmLookup, h] using ih
      · have hb : (k₁ != k') = true := by simp [hp]
        by_cases hk : k₁ = k
        · simp [dropKey, List.filter_cons, pmLookup, hk, Ne.symm h]
        · simpa [dropKey, List.filter_cons, hb, pmLookup, hk] using ih

theorem pmLookup_append (a b : PropMap) (k : String) :
    pmLookup k (a ++ b) =
      (match pmLookup k a with
       | some v => some v
       | none => pmLookup k b) := by
  induction a with
  | nil => simp [pmLookup]
  | cons p rest ih =>
      by_cases h : p.1 = k
      · simp [pmLookup, h]
      · simpa [pmLookup, h] using ih

theorem pmLookup_setProp (ps : PropMap) (k k' : String) (v : JsVal) :
    pmLookup k (setProp ps k' v) = if k' = k then some v else pmLookup k ps := by
  by_cases h : k' = k
  · subst h
    simp [setProp, pmLookup_append, pmLookup]
  · rw [setProp, pmLookup_append, pmLookup_dropKey_ne ps k k' h]
    cases hps : pmLookup k ps <;> simp [pmLookup, h, hps]

theorem pmLookup_eq_none_iff (ps : PropMap) (k : String) :
    pmLookup k ps = none ↔ k ∉ keysOf ps := by
  induction ps with
  | nil => simp [pmLookup, keysOf]
  | cons p rest ih =>
      by_cases h : p.1 = k
      · simp [pmLookup, h, keysOf]
      · simp [pmLookup, h, keysOf] at ih ⊢
        constructor
        · intro hk
          exact ⟨fun he => h he.symm, ih.mp hk⟩
        · intro hk
          exact ih.mpr hk.2

theorem pmLookup_removeAbsentKeys (P : PropMap) (k : String) :
    ∀ (ks : List String) (cur : PropMap),
      pmLookup k (removeAbsentKeys P ks cur) =
        if jsIn k P then pmLookup k cur
        else if k ∈ ks then none else pmLookup k cur := by
  intro ks
  induction ks with
  | nil =>
      intro cur
      by_cases h : jsIn k P = true <;> simp [removeAbsentKeys, h]
  | cons ep rest ih =>
      intro cur
      rw [removeAbsentKeys, ih]
      by_cases hkP : jsIn k P = true
      · by_cases hepP : jsIn ep P = true
        · simp [hkP, hepP]
        · have hne : ep ≠ k := fun he => hepP (he ▸ hkP)
          simp [hkP, hepP, pmLookup_dropKey_ne cur k ep hne]
      · by_cases hmem : k ∈ rest
        · simp [hkP, hmem]
        · by_cases hek : ep = k
          · subst hek
            simp [hkP, hmem, pmLookup_dropKey_self]
          · have : ¬ k ∈ ep :: rest := by
              intro hc
              rcases List.mem_cons.mp hc with hc | hc
              · exact hek hc.symm
              · exact hmem hc
            by_cases hepP : jsIn ep P = true
            · simp [hkP, hmem, hepP, hek, this]
            · simp [hkP, hmem, hepP, hek, this,
                pmLookup_dropKey_ne cur k ep (fun he => hek he)]

theorem pmLookup_setAllProps_none (k : String) :
    ∀ (P cur : PropMap), pmLookup k P = none →
      pmLookup k (setAllProps cur P) = pmLookup k cur := by
  intro P
  induction P with
  | nil => intro cur _; rfl
  | cons p rest ih =>
      intro cur hnone
      obtain ⟨k₁, v₁⟩ := p
      have h₁ : k₁ ≠ k := by
        intro he
        simp [pmLookup, he] at hnone
      have h₂ : pmLookup k rest = none := by
        simpa [pmLookup, h₁] using hnone
      rw [setAllProps, ih (setProp cur k₁ v₁) h₂, pmLookup_setProp]
      simp [h₁]

theorem pmLookup_setAllProps_some (k : String) (v : JsVal) :
    ∀ (P cur : PropMap), (keysOf P).Nodup → pmLookup k P = some v →
      pmLookup k (setAllProps cur P) = some v := by
  intro P
  induction P with
  | nil => intro cur _ h; simp [pmLookup] at h
  | cons p rest ih =>
      intro cur hnd hsome
      obtain ⟨k₁, v₁⟩ := p
      have hnd' : k₁ ∉ keysOf rest ∧ (keysOf rest).Nodup := by
        simpa [keysOf] using hnd
      by_cases h₁ : k₁ = k
      · subst h₁
        have hv : v = v₁ := by simpa [pmLookup] using hsome.symm
        subst hv
        have hrest : pmLookup k₁ rest = none :=
          (pmLookup_eq_none_iff rest k₁).mpr hnd'.1
        rw [setAllProps, pmLookup_setAllProps_none k₁ rest _ hrest, pmLookup_setProp]
        simp
      · have hrest : pmLookup k rest = some v := by
          simpa [pmLookup, h₁] using hsome
        rw [setAllProps]
        exact ih (setProp cur k₁ v₁) hnd'.2 hrest

/-- Key lemma for claim C1: reconciliation makes the property map agree with
the desired map at every key. -/
theorem pmLookup_reconcileProps (cur P : PropMap) (hP : (keysOf P).Nodup) (k : String) :
    pmLookup k (reconcileProps cur P) = pmLookup k P := by
  cases hp : pmLookup k P with
  | some v =>
      exact pmLookup_setAllProps_some k v P _ hP hp
  | none =>
      rw [reconcileProps, pmLookup_setAllProps_none k P _ hp,
        pmLookup_removeAbsentKeys P k (keysOf cur) cur]
      have hin : jsIn k P = false := by simp [jsIn, hp]
      by_cases hmem : k ∈ keysOf cur
      · simp [hin, hmem, hp]
      · simp [hin, hmem, (pmLookup_eq_none_iff cur k).mpr hmem, hp]

theorem find?_map_of_key_fixed {α : Type} (key : α → String) (id : String) (f : α → α)
    (hf : ∀ w, key (f w) = key w) :
    ∀ l : List α,
      List.find? (fun v => key v == id) (l.map f) =
        (List.find? (fun v => key v == id) l).map f := by
  intro l
  induction l with
  | nil => rfl
  | cons w rest ih =>
      by_cases h : key w == id
      · simp [List.find?, hf, h]
      · simp only [List.map_cons, List.find?]
        rw [hf w]
        simp only [h]
        exact ih

/-- Claim C1: after `updateProperties` the addressed element's property map
equals exactly the desired map `P`, key for key: every key present before but
absent from `P` has been removed and every key of `P` holds `P`'s value.
Holds for vertices (`isNode = true`) and edges (`isNode = false`) alike. -/
theorem updateProperties_exact (g : Graph) (id : String) (P : PropMap) (isNode : Bool)
    (hP : (keysOf P).Nodup)
    (hex : (elementProps g id isNode).isSome = true) :
    ∃ ps, elementProps (updateProperties g id P isNode) id isNode = some ps ∧
      ∀ k, pmLookup k ps = pmLookup k P := by
  cases isNode with
  | true =>
      cases hfind : g.vertices.find? (fun v => v.vid == id) with
      | none =>
          rw [elementProps, hfind] at hex
          simp at hex
      | some v =>
          have hv : (v.vid == id) = true := by simpa using List.find?_some hfind
          refine ⟨reconcileProps v.props P, ?_, fun k => pmLookup_reconcileProps v.props P hP k⟩
          simp only [updateProperties, hfind, elementProps]
          rw [find?_map_of_key_fixed Vertex.vid id
            (fun w => if w.vid == id then { w with props := reconcileProps v.props P } else w)
            (fun w => by by_cases h : (w.vid == id) = true <;> simp [h]), hfind]
          have hv2 : v.vid = id := by simpa using hv
          simp [hv, hv2]
  | false =>
      cases hfind : g.edges.find? (fun e => e.eid == id) with
      | none =>
          rw [elementProps, hfind] at hex
          simp at hex
      | some e =>
          have hv : (e.eid == id) = true := by simpa using List.find?_some hfind
          refine ⟨reconcileProps e.props P, ?_, fun k => pmLookup_reconcileProps e.props P hP k⟩
          simp only [updateProperties, hfind, elementProps]
          rw [find?_map_of_key_fixed GEdge.eid id
            (fun w => if w.eid == id then { w with props := reconcileProps e.props P } else w)
            (fun w => by by_cases h : (w.eid == id) = true <;> simp [h]), hfind]
          have hv2 : e.eid = id := by simpa using hv
          simp [hv, hv2]

/-- A concrete graph used by witnesses: two vertices and one edge. -/
def gExample : Graph :=
  { vertices :=
      [ { vid := "v1", vlabel := "person", props := [("name", JsVal.str "Eric"), ("a", JsVal.str "A")] }
      , { vid := "v2", vlabel := "person", props := [] } ]
  , edges :=
      [ { eid := "e1", elabel := "knows", outV := "v2", inV := "v1", props := [("since", JsVal.num 2020)] } ] }

/-- Witness for claim C1 at a concrete input: reconciling vertex `v1` of
`gExample` to the map `name = Erik, b = B` yields exactly that map. -/
theorem updateProperties_exact_witness :
    (keysOf [("name", JsVal.str "Erik"), ("b", JsVal.str "B")]).Nodup ∧
    (elementProps gExample "v1" true).isSome = true ∧
    ∃ ps, elementProps
        (updateProperties gExample "v1" [("name", JsVal.str "Erik"), ("b", JsVal.str "B")] true)
        "v1" true = some ps ∧
      ∀ k, pmLookup k ps = pmLookup k [("name", JsVal.str "Erik"), ("b", JsVal.str "B")] :=
  ⟨by decide, by rfl,
    updateProperties_exact gExample "v1" [("name", JsVal.str "Erik"), ("b", JsVal.str "B")] true
      (by decide) (by rfl)⟩

/-! ### Search extraction (Connection.search, lines 296-392) -/

/-- A raw element returned by the traversal (`valueMap(true)` for vertices,
`elementMap()` for edges): a JavaScript object, iterated key by key. -/
abbrev RawElem := List (String × JsVal)

/-- JavaScript property read `o[k]` on a raw element: `undefined` when the
key is missing. -/
def jsGet (n : RawElem) (k : String) : JsVal :=
  (pmLookup k n).getD JsVal.undef

/-- JavaScript member read `v.k`: field of an object, `undefined` on any
other value. -/
def jsField (v : JsVal) (k : String) : JsVal :=
  match v with
  | JsVal.obj fs => (pmLookup k fs).getD JsVal.undef
  | _ => JsVal.undef

/-- JavaScript strict equality `===` as used by `nodeExists` on element
identifiers.  Primitives compare structurally; arrays and objects compare by
reference, and the values compared here always originate from distinct
deserialized result objects, so a composite comparison is never identical. -/
def jsStrictEq : JsVal → JsVal → Bool
  | JsVal.undef, JsVal.undef => true
  | JsVal.str a, JsVal.str b => a == b
  | JsVal.num a, JsVal.num b => a == b
  | JsVal.boolean a, JsVal.boolean b => a == b
  | _, _ => false

/-- The per-value rule of node extraction (lines 340-349): a single-element
array is unwrapped to its sole element, anything else is kept verbatim. -/
def unwrapSingle : JsVal → JsVal
  | JsVal.arr [x] => x
  | v => v

/-- The property loop of node extraction (lines 338-351): every key other
than `id` and `label` becomes a property, its value unwrapped by
`unwrapSingle`. -/
def extractNodeProps (n : RawElem) : PropMap :=
  (n.filter (fun p => p.1 != "id" && p.1 != "label")).map (fun p => (p.1, unwrapSingle p.2))

/-- A node of the public domain model, as built by `search`. -/
structure MNode where
  id : JsVal
  labels : List JsVal
  properties : PropMap

/-- Node extraction (lines 326-353): identifier and label are taken from the
`id` and `label` keys, a scalar label is coerced to a one-element list, and
the remaining keys become properties. -/
def extractNode (n : RawElem) : MNode :=
  { id := jsGet n "id"
  , labels :=
      match jsGet n "label" with
      | JsVal.arr xs => xs
      | v => [v]
  , properties := extractNodeProps n }

/-- An edge of the public domain model, as built by `search`.  The source
names the endpoint fields `from` and `to`; they are called `efrom` and `eto`
here because `from` is reserved in Lean. -/
structure MEdge where
  id : JsVal
  elabel : JsVal
  efrom : JsVal
  eto : JsVal
  properties : PropMap

/-- One step of the edge-extraction key switch (lines 362-381): `id` and
`label` map directly, the `IN` endpoint object's id becomes `from`, the
`OUT` endpoint object's id becomes `to`, and every other key becomes a
property. -/
def extractEdgeStep (acc : MEdge) (p : String × JsVal) : MEdge :=
  match p.1 with
  | "id" => { acc with id := p.2 }
  | "label" => { acc with elabel := p.2 }
  | "IN" => { acc with efrom := jsField p.2 "id" }
  | "OUT" => { acc with eto := jsField p.2 "id" }
  | _ => { acc with properties := acc.properties ++ [(p.1, p.2)] }

/-- Edge extraction (lines 354-381): fold the key switch over the raw edge,
starting from the all-empty edge object. -/
def extractEdge (e : RawElem) : MEdge :=
  e.foldl extractEdgeStep
    { id := JsVal.str "", elabel := JsVal.str "", efrom := JsVal.str "", eto := JsVal.str ""
    , properties := [] }

/-- The function `nodeExists(nodes, id)` (lines 444-452): whether some
extracted node's identifier is strictly equal to the given one. -/
def nodeExists (nodes : List MNode) (id : JsVal) : Bool :=
  nodes.any (fun n => jsStrictEq n.id id)

/-- The edge loop of `search` (lines 354-385): each raw edge is extracted
and pushed only when both endpoints pass `nodeExists`. -/
def extractEdges (nodes : List MNode) (rawEdges : List RawElem) : List MEdge :=
  (rawEdges.map extractEdge).filter
    (fun ed => nodeExists nodes ed.efrom && nodeExists nodes ed.eto)

/-- The result shape of `search`. -/
structure SearchResult where
  nodes : List MNode
  edges : List MEdge

/-- The pure post-processing of `search` (lines 324-389): raw vertices and
raw edges from the traversal are turned into the domain model. -/
def searchExtract (rawNodes rawEdges : List RawElem) : SearchResult :=
  let nodes := rawNodes.map extractNode
  { nodes := nodes, edges := extractEdges nodes rawEdges }

/-- Claim C2: a raw edge appears in the search output exactly when both its
`from` identifier and its `to` identifier occur among the identifiers of the
output nodes; an edge failing the test is absent from the output entirely. -/
theorem search_edge_endpoint_invariant (rawNodes rawEdges : List RawElem) (raw : RawElem)
    (hraw : raw ∈ rawEdges) :
    (extractEdge raw ∈ (searchExtract rawNodes rawEdges).edges ↔
      ((∃ n ∈ (searchExtract rawNodes rawEdges).nodes,
          jsStrictEq n.id (extractEdge raw).efrom = true) ∧
       (∃ n ∈ (searchExtract rawNodes rawEdges).nodes,
          jsStrictEq n.id (extractEdge raw).eto = true))) := by
  constructor
  · intro hmem
    have h := (List.mem_filter.mp hmem).2
    rw [Bool.and_eq_true] at h
    exact ⟨by simpa [searchExtract, nodeExists, List.any_eq_true, List.mem_map] using h.1,
           by simpa [searchExtract, nodeExists, List.any_eq_true, List.mem_map] using h.2⟩
  · intro hcond
    refine List.mem_filter.mpr ⟨List.mem_map.mpr ⟨raw, hraw, rfl⟩, ?_⟩
    rw [Bool.and_eq_true]
    exact ⟨by simpa [searchExtract, nodeExists, List.any_eq_true, List.mem_map] using hcond.1,
           by simpa [searchExtract, nodeExists, List.any_eq_true, List.mem_map] using hcond.2⟩

/-- Concrete raw data used by witnesses for the search claims. -/
def rawNodesExample : List RawElem :=
  [ [("id", JsVal.str "v1"), ("label", JsVal.str "person"),
     ("name", JsVal.arr [JsVal.str "Eric"]),
     ("tags", JsVal.arr [JsVal.str "a", JsVal.str "b"])] ]

/-- Concrete raw edges used by witnesses for the search claims: the first has
both endpoints in the result, the second dangles. -/
def rawEdgesExample : List RawElem :=
  [ [("id", JsVal.str "e1"), ("label", JsVal.str "owns"),
     ("IN", JsVal.obj [("id", JsVal.str "v1")]), ("OUT", JsVal.obj [("id", JsVal.str "v1")])] ]

/-- Witness for claim C2 at a concrete input. -/
theorem search_edge_endpoint_invariant_witness :
    (extractEdge [("id", JsVal.str "e1"), ("label", JsVal.str "owns"),
        ("IN", JsVal.obj [("id", JsVal.str "v1")]), ("OUT", JsVal.obj [("id", JsVal.str "v1")])]
      ∈ (searchExtract rawNodesExample rawEdgesExample).edges ↔
      ((∃ n ∈ (searchExtract rawNodesExample rawEdgesExample).nodes,
          jsStrictEq n.id (extractEdge [("id", JsVal.str "e1"), ("label", JsVal.str "owns"),
            ("IN", JsVal.obj [("id", JsVal.str "v1")]),
            ("OUT", JsVal.obj [("id", JsVal.str "v1")])]).efrom = true) ∧
       (∃ n ∈ (searchExtract rawNodesExample rawEdgesExample).nodes,
          jsStrictEq n.id (extractEdge [("id", JsVal.str "e1"), ("label", JsVal.str "owns"),
            ("IN", JsVal.obj [("id", JsVal.str "v1")]),
            ("OUT", JsVal.obj [("id", JsVal.str "v1")])]).eto = true))) :=
  search_edge_endpoint_invariant rawNodesExample rawEdgesExample _
    (by simp [rawEdgesExample])

theorem pmLookup_extractNodeProps (n : RawElem) (k : String)
    (hid : k ≠ "id") (hlabel : k ≠ "label") :
    pmLookup k (extractNodeProps n) = (pmLookup k n).map unwrapSingle := by
  induction n with
  | nil => rfl
  | cons p rest ih =>
      obtain ⟨k₁, v₁⟩ := p
      by_cases h : k₁ = k
      · subst h
        have hb : (k₁ != "id" && k₁ != "label") = true := by simp [hid, hlabel]
        simp [extractNodeProps, List.filter_cons, hb, pmLookup]
      · by_cases hkeep : (k₁ != "id" && k₁ != "label") = true
        · simpa [extractNodeProps, List.filter_cons, hkeep, pmLookup, h] using ih
        · simpa [extractNodeProps, List.filter_cons, hkeep, pmLookup, h] using ih

/-- Claim C8: in node extraction every key other than `id` and `label`
becomes a property; a single-element array value is unwrapped to its sole
element, any other array is kept verbatim, as is any non-array value. -/
theorem extractNode_property_rule (n : RawElem) (k : String)
    (hid : k ≠ "id") (hlabel : k ≠ "label") :
    pmLookup k (extractNode n).properties = (pmLookup k n).map unwrapSingle ∧
    (∀ x, unwrapSingle (JsVal.arr [x]) = x) ∧
    (∀ xs, xs.length ≠ 1 → unwrapSingle (JsVal.arr xs) = JsVal.arr xs) ∧
    (∀ v, (∀ xs, v ≠ JsVal.arr xs) → unwrapSingle v = v) := by
  refine ⟨pmLookup_extractNodeProps n k hid hlabel, fun x => rfl, ?_, ?_⟩
  · intro xs hlen
    match xs with
    | [] => rfl
    | [x] => exact absurd rfl hlen
    | x :: y :: rest => rfl
  · intro v hv
    match v with
    | JsVal.undef => rfl
    | JsVal.str s => rfl
    | JsVal.num i => rfl
    | JsVal.boolean b => rfl
    | JsVal.obj fs => rfl
    | JsVal.arr xs => exact absurd rfl (hv xs)

/-- Witness for claim C8 at a concrete input: in `rawNodesExample` the
single-element `name` is unwrapped and the two-element `tags` is kept. -/
theorem extractNode_property_rule_witness :
    pmLookup "name" (extractNode [("id", JsVal.str "v1"), ("label", JsVal.str "person"),
        ("name", JsVal.arr [JsVal.str "Eric"]),
        ("tags", JsVal.arr [JsVal.str "a", JsVal.str "b"])]).properties =
      (pmLookup "name" [("id", JsVal.str "v1"), ("label", JsVal.str "person"),
        ("name", JsVal.arr [JsVal.str "Eric"]),
        ("tags", JsVal.arr [JsVal.str "a", JsVal.str "b"])]).map unwrapSingle ∧
    (∀ x, unwrapSingle (JsVal.arr [x]) = x) ∧
    (∀ xs, xs.length ≠ 1 → unwrapSingle (JsVal.arr xs) = JsVal.arr xs) ∧
    (∀ v, (∀ xs, v ≠ JsVal.arr xs) → unwrapSingle v = v) :=
  extractNode_property_rule _ "name" (by decide) (by decide)

/-! ### The retrying query executor (Connection.query, lines 115-159)

The source runs the caller's query function through the `async.retry`
helper with `times: 5`, `interval: 1000` and the `errorFilter` of lines
125-152.  The helper invokes the task; on an error it evaluates the filter
only while attempts remain, waits the interval when the filter returns true,
and otherwise delivers the error to the caller.  An exception thrown by the
filter escapes the task callback and is re-raised asynchronously as an
uncaught exception, so the returned promise never settles.

The filter is declared with the `function` keyword and is invoked by the
retry helper as a method of its own options record, so `this` inside the
filter is that options record — not the `Connection` instance.  The model
keeps the binding explicit in the parameter `thisIsConnection`; the source's
actual behavior is `thisIsConnection = false`.
-/

/-- A JavaScript error value: an `Error` with a message, or the `TypeError`
raised by a member access on `undefined`. -/
inductive JsError where
  | error : String → JsError
  | typeError : String → JsError
deriving DecidableEq

/-- The message of an error. -/
def JsError.msg : JsError → String
  | JsError.error m => m
  | JsError.typeError m => m

/-- Character-list test used to model `String.prototype.startsWith`. -/
def listStartsWith : List Char → List Char → Bool
  | [], _ => true
  | _ :: _, [] => false
  | p :: ps, c :: cs => p == c && listStartsWith ps cs

/-- Character-list test used to model `String.prototype.includes`: the
pattern occurs at some position. -/
def listOccurs (pat : List Char) : List Char → Bool
  | [] => listStartsWith pat []
  | c :: cs => listStartsWith pat (c :: cs) || listOccurs pat cs

/-- JavaScript `s.startsWith(pat)`. -/
def jsStartsWith (s pat : String) : Bool := listStartsWith pat.data s.data

/-- JavaScript `s.includes(pat)`. -/
def jsIncludes (s pat : String) : Bool := listOccurs pat.data s.data

/-- The error classes distinguished by the filter, in its test order. -/
inductive RClass where
  | ws | cme | rov | other
deriving DecidableEq

/-- Classification of an error by the filter's three message tests
(lines 131, 140, 146). -/
def retryClassOf (e : JsError) : RClass :=
  if jsStartsWith e.msg "WebSocket is not open" then RClass.ws
  else if jsIncludes e.msg "ConcurrentModificationException" then RClass.cme
  else if jsIncludes e.msg "ReadOnlyViolationException" then RClass.rov
  else RClass.other

/-- Executor state threaded through the retry loop.  `handleGen` is the
generation of the traversal handle `g` (a fresh `traversal().withRemote`
after each reconnect), `reconnects` counts connection rebuilds, and
`attemptHandles` / `waits` record, per attempt, the handle generation used
and the waits inserted between attempts. -/
structure ExecState where
  handleGen : Nat
  reconnects : Nat
  attemptHandles : List Nat
  waits : List Nat
deriving DecidableEq

/-- The `errorFilter` of lines 125-152.  On a message starting with
"WebSocket is not open" the body runs `this.connection.close()`,
`this.connect()` and rebuilds `g`; when `this` is not the `Connection`
(the source's actual invocation) `this.connection` is `undefined` and the
member call throws a `TypeError`.  The two exception-name tests return true
without touching `this`; anything else returns false. -/
def errorFilter (thisIsConnection : Bool) (st : ExecState) (e : JsError) :
    Except JsError (Bool × ExecState) :=
  if jsStartsWith e.msg "WebSocket is not open" then
    if thisIsConnection then
      Except.ok (true, { st with handleGen := st.handleGen + 1, reconnects := st.reconnects + 1 })
    else
      Except.error (JsError.typeError "Cannot read properties of undefined")
  else if jsIncludes e.msg "ConcurrentModificationException" then
    Except.ok (true, st)
  else if jsIncludes e.msg "ReadOnlyViolationException" then
    Except.ok (true, st)
  else
    Except.ok (false, st)

/-- How a `query` call ends for the caller: a result, a rejected promise
carrying an error, or an uncaught exception thrown out of the retry
machinery (the promise never settles and the fault hits the event loop). -/
inductive Outcome (α : Type) where
  | ok : α → Outcome α
  | err : JsError → Outcome α
  | crash : JsError → Outcome α
deriving DecidableEq

/-- The retry loop of the `async.retry` helper, specialized to the source's
options.  `attempt` is the 1-based attempt number, `remaining` the number of
attempts still allowed (initially `times = 5`; the `0` case is unreachable
from `query`).  The query function receives the attempt number and the
current handle generation.  After a failure the filter is consulted only
when further attempts remain; a throwing filter crashes the call. -/
def retryGo (thisIsConnection : Bool) (interval : Nat)
    (f : Nat → Nat → Except JsError α) :
    Nat → Nat → ExecState → Outcome α × ExecState
  | attempt, 0, st =>
    let st1 := { st with attemptHandles := st.attemptHandles ++ [st.handleGen] }
    match f attempt st1.handleGen with
    | Except.ok a => (Outcome.ok a, st1)
    | Except.error e => (Outcome.err e, st1)
  | attempt, 1, st =>
    let st1 := { st with attemptHandles := st.attemptHandles ++ [st.handleGen] }
    match f attempt st1.handleGen with
    | Except.ok a => (Outcome.ok a, st1)
    | Except.error e => (Outcome.err e, st1)
  | attempt, r + 2, st =>
    let st1 := { st with attemptHandles := st.attemptHandles ++ [st.handleGen] }
    match f attempt st1.handleGen with
    | Except.ok a => (Outcome.ok a, st1)
    | Except.error e =>
      match errorFilter thisIsConnection st1 e with
      | Except.error te => (Outcome.crash te, st1)
      | Except.ok (false, st2) => (Outcome.err e, st2)
      | Except.ok (true, st2) =>
        retryGo thisIsConnection interval f (attempt + 1) (r + 1)
          { st2 with waits := st2.waits ++ [interval] }

/-- The function `query(f)` (lines 115-159): obtain the traversal handle
(generation 0) and run the retry loop with `times: 5` and
`interval: 1000`. -/
def query (thisIsConnection : Bool) (f : Nat → Nat → Except JsError α) :
    Outcome α × ExecState :=
  retryGo thisIsConnection 1000 f 1 5
    { handleGen := 0, reconnects := 0, attemptHandles := [], waits := [] }

theorem errorFilter_retryable_same (tb : Bool) (st : ExecState) (e : JsError)
    (h : retryClassOf e = RClass.cme ∨ retryClassOf e = RClass.rov) :
    errorFilter tb st e = Except.ok (true, st) := by
  rw [retryClassOf] at h
  rw [errorFilter]
  rcases h with h | h
  · split_ifs at h ⊢
    all_goals simp_all
  · split_ifs at h ⊢
    all_goals simp_all

theorem errorFilter_other (tb : Bool) (st : ExecState) (e : JsError)
    (h : retryClassOf e = RClass.other) :
    errorFilter tb st e = Except.ok (false, st) := by
  rw [retryClassOf] at h
  rw [errorFilter]
  split_ifs at h ⊢
  all_goals simp_all

theorem retryGo_last {α : Type} (tb : Bool) (i : Nat) (f : Nat → Nat → Except JsError α)
    (attempt : Nat) (st : ExecState) (e : JsError)
    (he : f attempt st.handleGen = Except.error e) :
    retryGo tb i f attempt 1 st =
      (Outcome.err e, { st with attemptHandles := st.attemptHandles ++ [st.handleGen] }) := by
  simp only [retryGo]
  simp [he]

theorem retryGo_step_retry {α : Type} (tb : Bool) (i : Nat) (f : Nat → Nat → Except JsError α)
    (attempt r : Nat) (st : ExecState) (e : JsError)
    (he : f attempt st.handleGen = Except.error e)
    (hfil : errorFilter tb { st with attemptHandles := st.attemptHandles ++ [st.handleGen] } e =
      Except.ok (true, { st with attemptHandles := st.attemptHandles ++ [st.handleGen] })) :
    retryGo tb i f attempt (r + 2) st =
      retryGo tb i f (attempt + 1) (r + 1)
        { st with attemptHandles := st.attemptHandles ++ [st.handleGen],
                  waits := st.waits ++ [i] } := by
  simp only [retryGo]
  simp [he, hfil]

theorem retryGo_step_stop {α : Type} (tb : Bool) (i : Nat) (f : Nat → Nat → Except JsError α)
    (attempt r : Nat) (st : ExecState) (e : JsError)
    (he : f attempt st.handleGen = Except.error e)
    (hfil : errorFilter tb { st with attemptHandles := st.attemptHandles ++ [st.handleGen] } e =
      Except.ok (false, { st with attemptHandles := st.attemptHandles ++ [st.handleGen] })) :
    retryGo tb i f attempt (r + 2) st =
      (Outcome.err e, { st with attemptHandles := st.attemptHandles ++ [st.handleGen] }) := by
  simp only [retryGo]
  simp [he, hfil]

theorem retryGo_all_retryable {α : Type} (tb : Bool) (f : Nat → Nat → Except JsError α)
    (hf : ∀ a hdl, ∃ e, f a hdl = Except.error e ∧
      (retryClassOf e = RClass.cme ∨ retryClassOf e = RClass.rov)) :
    ∀ (r a : Nat) (st : ExecState), ∃ e, f (a + r) st.handleGen = Except.error e ∧
      retryGo tb 1000 f a (r + 1) st =
        (Outcome.err e,
         { st with attemptHandles := st.attemptHandles ++ List.replicate (r + 1) st.handleGen,
                   waits := st.waits ++ List.replicate r 1000 }) := by
  intro r
  induction r with
  | zero =>
      intro a st
      obtain ⟨e, he, _⟩ := hf a st.handleGen
      refine ⟨e, by simpa using he, ?_⟩
      rw [show (0 : Nat) + 1 = 1 from rfl, retryGo_last tb 1000 f a st e he]
      simp
  | succ r ih =>
      intro a st
      obtain ⟨e1, he1, hc1⟩ := hf a st.handleGen
      obtain ⟨e, he, hrec⟩ := ih (a + 1)
        { st with attemptHandles := st.attemptHandles ++ [st.handleGen],
                  waits := st.waits ++ [1000] }
      refine ⟨e, ?_, ?_⟩
      · have harith : a + 1 + r = a + (r + 1) := by omega
        rw [harith] at he
        simpa using he
      · rw [show r + 1 + 1 = r + 2 from rfl,
          retryGo_step_retry tb 1000 f a r st e1 he1
            (errorFilter_retryable_same tb _ e1 hc1), hrec]
        simp [List.replicate_succ, List.append_assoc]

/-- Claim C3 (amended): for a query function that fails on every attempt
with a concurrent-modification or read-only-violation error — the retryable
classes whose filter branch does not dereference `this` — the executor
invokes it exactly 5 times on the unchanged handle, waits 1000 ms between
consecutive attempts (4 waits), performs no reconnect, and delivers the last
underlying error to the caller. -/
theorem query_retry_exhaustion {α : Type} (f : Nat → Nat → Except JsError α)
    (hf : ∀ a hdl, ∃ e, f a hdl = Except.error e ∧
      (retryClassOf e = RClass.cme ∨ retryClassOf e = RClass.rov)) :
    ∃ e, f 5 0 = Except.error e ∧
      query false f =
        (Outcome.err e,
         { handleGen := 0, reconnects := 0, attemptHandles := [0, 0, 0, 0, 0],
           waits := [1000, 1000, 1000, 1000] }) := by
  obtain ⟨e, he, hq⟩ := retryGo_all_retryable false f hf 4 1
    { handleGen := 0, reconnects := 0, attemptHandles := [], waits := [] }
  refine ⟨e, by simpa using he, ?_⟩
  rw [query, show (5 : Nat) = 4 + 1 from rfl, hq]
  simp [List.replicate]

/-- A query function that always fails with a concurrent-modification
conflict. -/
def cmeFail : Nat → Nat → Except JsError Unit :=
  fun _ _ => Except.error (JsError.error "ConcurrentModificationException: conflict")

/-- Witness for the amended claim C3 at a concrete input. -/
theorem query_retry_exhaustion_witness :
    (∀ a hdl, ∃ e, cmeFail a hdl = Except.error e ∧
      (retryClassOf e = RClass.cme ∨ retryClassOf e = RClass.rov)) ∧
    ∃ e, cmeFail 5 0 = Except.error e ∧
      query false cmeFail =
        (Outcome.err e,
         { handleGen := 0, reconnects := 0, attemptHandles := [0, 0, 0, 0, 0],
           waits := [1000, 1000, 1000, 1000] }) := by
  have hcls : retryClassOf (JsError.error "ConcurrentModificationException: conflict") =
      RClass.cme ∨
      retryClassOf (JsError.error "ConcurrentModificationException: conflict") =
      RClass.rov := by decide
  constructor
  · intro a hdl
    exact ⟨JsError.error "ConcurrentModificationException: conflict", rfl, hcls⟩
  · exact query_retry_exhaustion cmeFail
      (fun a hdl => ⟨JsError.error "ConcurrentModificationException: conflict", rfl, hcls⟩)

/-- A query function that always fails with a message starting with
"WebSocket is not open" — the socket-not-open retryable class. -/
def wsFail : Nat → Nat → Except JsError Unit :=
  fun _ _ => Except.error (JsError.error "WebSocket is not open")

/-- Counterexample to claim C3 as stated: the socket-not-open class is one
of the recognized retryable classes, yet a query function that always fails
with it is invoked only once — the filter's reconnect branch dereferences
`this.connection`, which is `undefined`, throwing a `TypeError` that escapes
as an uncaught exception instead of a retry-exhaustion failure. -/
theorem query_ws_retryable_single_attempt :
    retryClassOf (JsError.error "WebSocket is not open") = RClass.ws ∧
    (query false wsFail).2.attemptHandles.length = 1 ∧
    (query false wsFail).1 =
      Outcome.crash (JsError.typeError "Cannot read properties of undefined") := by
  decide

/-- Claim C4: a query function whose failure matches none of the three
recognized transient classes is invoked exactly once; its error is delivered
to the caller unchanged, with no wait and no reconnect. -/
theorem query_nonretryable_single_attempt {α : Type} (f : Nat → Nat → Except JsError α)
    (e : JsError) (hf : f 1 0 = Except.error e) (hc : retryClassOf e = RClass.other) :
    query false f =
      (Outcome.err e,
       { handleGen := 0, reconnects := 0, attemptHandles := [0], waits := [] }) := by
  rw [query, show (5 : Nat) = 3 + 2 from rfl,
    retryGo_step_stop false 1000 f 1 3
      { handleGen := 0, reconnects := 0, attemptHandles := [], waits := [] } e hf
      (errorFilter_other false _ e hc)]
  rfl

/-- A query function that fails with an unrecognized error. -/
def plainFail : Nat → Nat → Except JsError Unit :=
  fun _ _ => Except.error (JsError.error "Server error: 500")

/-- Witness for claim C4 at a concrete input. -/
theorem query_nonretryable_single_attempt_witness :
    plainFail 1 0 = Except.error (JsError.error "Server error: 500") ∧
    retryClassOf (JsError.error "Server error: 500") = RClass.other ∧
    query false plainFail =
      (Outcome.err (JsError.error "Server error: 500"),
       { handleGen := 0, reconnects := 0, attemptHandles := [0], waits := [] }) :=
  ⟨rfl, by decide,
   query_nonretryable_single_attempt plainFail (JsError.error "Server error: 500") rfl
     (by decide)⟩

/-- A query function that fails with a socket-not-open error on the first
attempt and succeeds afterwards, returning the handle generation it was
called with. -/
def wsThenOk : Nat → Nat → Except JsError Nat :=
  fun attempt hdl =>
    if attempt = 1 then Except.error (JsError.error "WebSocket is not open") else Except.ok hdl

/-- Claim C6 evaluated at the failing input: on a socket-not-open failure
the source's filter — whose `this` is the retry options record, not the
`Connection` — throws a `TypeError` before any reconnect, so the call
crashes with zero reconnects after a single attempt.  Had `this` been the
`Connection` (the intended binding), the executor would reconnect exactly
once and resume with the handle of the rebuilt connection (generation 1). -/
theorem query_ws_no_reconnect :
    (query false wsThenOk).2.reconnects = 0 ∧
    (query false wsThenOk).2.attemptHandles = [0] ∧
    (query false wsThenOk).1 =
      Outcome.crash (JsError.typeError "Cannot read properties of undefined") ∧
    (query true wsThenOk).2.reconnects = 1 ∧
    (query true wsThenOk).2.attemptHandles = [0, 1] ∧
    (query true wsThenOk).1 = Outcome.ok 1 := by
  decide

/-! ### The close-notification handler (Connection.connect, lines 97-103) -/

/-- The handler registered on the session's `close` event: on status code
1006 it throws `Error("Connection closed prematurely")`, otherwise it only
logs.  The returned value is the error thrown inside the event callback, if
any. -/
def closeHandler (code : Int) : Option JsError :=
  if code == 1006 then some (JsError.error "Connection closed prematurely") else none

/-- Where a fault raised by the close handler lands. -/
inductive FaultDestination where
  | silent : FaultDestination
  | inFlightOperation : FaultDestination
  | uncaughtEventLoop : FaultDestination
deriving DecidableEq

/-- Delivery of the close handler's outcome.  The handler is registered as a
plain event callback (`connection.on("close", ...)`); no promise, queue or
in-flight operation observes its result, so a value thrown inside it
propagates to the event loop as an uncaught exception rather than to any
operation awaiting the session. -/
def closeFaultDestination (code : Int) : FaultDestination :=
  match closeHandler code with
  | some _ => FaultDestination.uncaughtEventLoop
  | none => FaultDestination.silent

/-- Claim C7 evaluated at the failing input: on the abnormal-close code 1006
the handler throws, and the fault lands on the event loop as an uncaught
asynchronous exception — it is not delivered to any in-flight operation,
contrary to the claim. -/
theorem closeHandler_1006_uncaught :
    closeHandler 1006 = some (JsError.error "Connection closed prematurely") ∧
    closeFaultDestination 1006 = FaultDestination.uncaughtEventLoop ∧
    closeFaultDestination 1006 ≠ FaultDestination.inFlightOperation := by
  decide

/-! ### Deletions (Connection.deleteNode lines 200-208, deleteEdge lines 252-258) -/

/-- The function `deleteNode(id)`: three sequential traversals —
`g.V(id).inE().drop()`, `g.V(id).outE().drop()`, `g.V(id).drop()`.  When the
vertex does not exist every traversal is empty and nothing is dropped. -/
def deleteNode (g : Graph) (id : String) : Graph :=
  let hasV := (g.vertices.find? (fun v => v.vid == id)).isSome
  let afterInE := if hasV then g.edges.filter (fun e => e.inV != id) else g.edges
  let afterOutE := if hasV then afterInE.filter (fun e => e.outV != id) else afterInE
  { vertices := g.vertices.filter (fun v => v.vid != id), edges := afterOutE }

/-- The function `deleteEdge(id)`: the single traversal `g.E(id).drop()`. -/
def deleteEdge (g : Graph) (id : String) : Graph :=
  { g with edges := g.edges.filter (fun e => e.eid != id) }

theorem find?_eq_none_of_filter_ne (l : List Vertex) (id : String) :
    (l.filter (fun v => v.vid != id)).find? (fun v => v.vid == id) = none := by
  rw [List.find?_eq_none]
  intro v hv
  have := (List.mem_filter.mp hv).2
  simpa using this

/-- Claim C9: `deleteNode` and `deleteEdge` are total (they complete without
error even when no element carries the identifier — in that case the graph is
unchanged), and both are idempotent: a second invocation right after a
successful first one leaves the graph state unchanged. -/
theorem delete_idempotent_total (g : Graph) (id : String) :
    deleteNode (deleteNode g id) id = deleteNode g id ∧
    deleteEdge (deleteEdge g id) id = deleteEdge g id ∧
    ((g.vertices.find? (fun v => v.vid == id)) = none → deleteNode g id = g) ∧
    ((g.edges.find? (fun e => e.eid == id)) = none → deleteEdge g id = g) := by
  refine ⟨?_, ?_, ?_, ?_⟩
  · have hnone : ((deleteNode g id).vertices.find? (fun v => v.vid == id)) = none :=
      find?_eq_none_of_filter_ne g.vertices id
    rw [deleteNode]
    simp only [hnone, Option.isSome_none, Bool.false_eq_true, if_false]
    rw [deleteNode]
    simp [List.filter_filter]
  · rw [deleteEdge, deleteEdge]
    simp [List.filter_filter]
  · intro hnone
    have hall : ∀ v ∈ g.vertices, (v.vid != id) = true := by
      intro v hv
      have := List.find?_eq_none.mp hnone v hv
      simpa using this
    rw [deleteNode]
    simp [hnone, List.filter_eq_self.mpr hall]
  · intro hnone
    have hall : ∀ e ∈ g.edges, (e.eid != id) = true := by
      intro e he
      have := List.find?_eq_none.mp hnone e he
      simpa using this
    rw [deleteEdge]
    simp [List.filter_eq_self.mpr hall]

/-- Witness for claim C9 at a concrete input: deleting the absent identifier
`zzz` from `gExample` and deleting twice. -/
theorem delete_idempotent_total_witness :
    deleteNode (deleteNode gExample "zzz") "zzz" = deleteNode gExample "zzz" ∧
    deleteEdge (deleteEdge gExample "zzz") "zzz" = deleteEdge gExample "zzz" ∧
    deleteNode gExample "zzz" = gExample ∧
    deleteEdge gExample "zzz" = gExample := by
  obtain ⟨h1, h2, h3, h4⟩ := delete_idempotent_total gExample "zzz"
  exact ⟨h1, h2, h3 (by rfl), h4 (by rfl)⟩

/-! ### Edge upsert (Connection.saveEdge, lines 217-245) -/

/-- The caller-supplied edge value `{id, label, from, to, properties}`.  The
endpoint fields are named `fromId` and `toId` because `from` is reserved in
Lean. -/
structure EdgeInput where
  eid : String
  elabel : String
  fromId : String
  toId : String
  props : PropMap

/-- The `from` identifier of a stored edge in the library's own domain
model: the search extraction maps the `IN` endpoint of the element map to
`from` (line 370-372), i.e. the engine-level in-vertex. -/
def edgeDomainFrom (e : GEdge) : String := e.inV

/-- The `to` identifier of a stored edge in the library's own domain model:
the search extraction maps the `OUT` endpoint to `to` (line 373-375), i.e.
the engine-level out-vertex. -/
def edgeDomainTo (e : GEdge) : String := e.outV

/-- The function `saveEdge(edge)` (lines 217-245).  If `g.E(edge.id)` finds
an edge, only its properties are reconciled.  Otherwise the traversal
`g.V(edge.to).as("a").V(edge.from).addE(edge.label).property(t.id, edge.id)
.from_("a")` runs: it yields a traverser only when both endpoint vertices
exist, and then creates an edge whose engine-level out-vertex is the vertex
labelled "a" (the one addressed by `edge.to`) and whose in-vertex is the
current vertex (the one addressed by `edge.from`); afterwards the properties
are reconciled with edge semantics (`isNode = false`). -/
def saveEdge (g : Graph) (e : EdgeInput) : Graph :=
  match g.edges.find? (fun w => w.eid == e.eid) with
  | some _ => updateProperties g e.eid e.props false
  | none =>
    if ((g.vertices.find? (fun v => v.vid == e.toId)).isSome &&
        (g.vertices.find? (fun v => v.vid == e.fromId)).isSome) then
      let g' := { g with edges := g.edges ++
        [{ eid := e.eid, elabel := e.elabel, outV := e.toId, inV := e.fromId, props := [] }] }
      updateProperties g' e.eid e.props false
    else
      updateProperties g e.eid e.props false

theorem find?_append_none {α : Type} (p : α → Bool) (l₁ l₂ : List α)
    (h : l₁.find? p = none) : (l₁ ++ l₂).find? p = l₂.find? p := by
  induction l₁ with
  | nil => rfl
  | cons x rest ih =>
      have hx : p x = false := by
        by_cases hpx : p x = true
        · rw [List.find?] at h
          simp [hpx] at h
        · simpa using hpx
      rw [List.cons_append, List.find?, hx]
      rw [List.find?, hx] at h
      exact ih h

/-- Claim C5: for an edge value whose identifier is not present, `saveEdge`
creates an edge carrying that identifier and `edge.label`, with engine-level
out-vertex `edge.to` and in-vertex `edge.from` — which the library's own
direction convention (`IN` is `from`, `OUT` is `to`) reads back as directed
from `edge.from` to `edge.to` — and then reconciles its properties with edge
semantics, leaving exactly `edge.properties`. -/
theorem saveEdge_creates_new_edge (g : Graph) (e : EdgeInput)
    (hnew : g.edges.find? (fun w => w.eid == e.eid) = none)
    (hto : (g.vertices.find? (fun v => v.vid == e.toId)).isSome = true)
    (hfrom : (g.vertices.find? (fun v => v.vid == e.fromId)).isSome = true)
    (hP : (keysOf e.props).Nodup) :
    ∃ ed, (saveEdge g e).edges.find? (fun w => w.eid == e.eid) = some ed ∧
      ed.elabel = e.elabel ∧
      ed.outV = e.toId ∧ ed.inV = e.fromId ∧
      edgeDomainFrom ed = e.fromId ∧ edgeDomainTo ed = e.toId ∧
      ∀ k, pmLookup k ed.props = pmLookup k e.props := by
  have hnewedge :
      (g.edges ++
        [{ eid := e.eid, elabel := e.elabel, outV := e.toId, inV := e.fromId, props := [] }]
        : List GEdge).find? (fun w => w.eid == e.eid) =
      some { eid := e.eid, elabel := e.elabel, outV := e.toId, inV := e.fromId, props := [] } := by
    rw [find?_append_none _ _ _ hnew, List.find?]
    simp
  refine ⟨{ eid := e.eid, elabel := e.elabel, outV := e.toId, inV := e.fromId,
            props := reconcileProps [] e.props }, ?_, rfl, rfl, rfl, rfl, rfl,
          fun k => pmLookup_reconcileProps [] e.props hP k⟩
  rw [saveEdge, hnew]
  simp only [hto, hfrom, Bool.and_self, if_true]
  rw [updateProperties]
  simp only [hnewedge]
  rw [find?_map_of_key_fixed GEdge.eid e.eid
    (fun w => if w.eid == e.eid then { w with props := reconcileProps [] e.props } else w)
    (fun w => by by_cases h : (w.eid == e.eid) = true <;> simp [h]), hnewedge]
  simp

/-- A concrete edge value used by the C5 witness. -/
def edgeInputExample : EdgeInput :=
  { eid := "e9", elabel := "owns", fromId := "v1", toId := "v2",
    props := [("since", JsVal.num 2020)] }

/-- Witness for claim C5 at a concrete input: saving the new edge `e9`
between the existing vertices of `gExample`. -/
theorem saveEdge_creates_new_edge_witness :
    ∃ ed, (saveEdge gExample edgeInputExample).edges.find?
        (fun w => w.eid == edgeInputExample.eid) = some ed ∧
      ed.elabel = edgeInputExample.elabel ∧
      ed.outV = edgeInputExample.toId ∧ ed.inV = edgeInputExample.fromId ∧
      edgeDomainFrom ed = edgeInputExample.fromId ∧
      edgeDomainTo ed = edgeInputExample.toId ∧
      ∀ k, pmLookup k ed.props = pmLookup k edgeInputExample.props :=
  saveEdge_creates_new_edge gExample edgeInputExample (by rfl) (by rfl) (by rfl) (by decide)

/-! ### Request signing headers (getHeaders, lines 463-488) -/

/-- JavaScript truthiness of an optional string: `undefined` and the empty
string are falsy. -/
def truthyStr : Option String → Bool
  | none => false
  | some s => s != ""

/-- JavaScript truthiness of an optional port number: `undefined` and `0`
are falsy. -/
def truthyPort : Option Nat → Bool
  | none => false
  | some n => n != 0

/-- JavaScript `a || b` on optional strings: `a` when truthy, else `b`. -/
def jsOrStr (a b : Option String) : Option String :=
  if truthyStr a then a else b

/-- The optional `credentials` argument of `getHeaders`; the source reads
both the short (`accessKey`/`secretKey`) and the long
(`accessKeyId`/`secretAccessKey`) field spellings. -/
structure JsCreds where
  accessKey : Option String
  accessKeyId : Option String
  secretKey : Option String
  secretAccessKey : Option String
  sessionToken : Option String
  region : Option String

/-- The process environment variables read by `getHeaders`. -/
structure EnvVars where
  awsAccessKeyId : Option String
  awsSecretAccessKey : Option String
  awsSessionToken : Option String
  awsDefaultRegion : Option String

/-- Resolution of the access key id (lines 469-470): explicit argument
fields first, then the environment fallback. -/
def resolvedAccessKeyId (credentials : JsCreds) (env : EnvVars) : Option String :=
  jsOrStr (jsOrStr credentials.accessKey credentials.accessKeyId) env.awsAccessKeyId

/-- Resolution of the secret access key (lines 471-472). -/
def resolvedSecretAccessKey (credentials : JsCreds) (env : EnvVars) : Option String :=
  jsOrStr (jsOrStr credentials.secretKey credentials.secretAccessKey) env.awsSecretAccessKey

/-- The input handed to the external signer `aws4.sign`.  The signer is an
out-of-scope collaborator that deterministically produces headers from this
record and never fails once `getHeaders` has validated endpoint and keys, so
the model returns the signing input itself in place of the headers. -/
structure SignInput where
  host : String
  port : Nat
  region : Option String
  path : String
  service : String
  accessKeyId : Option String
  secretAccessKey : Option String
  sessionToken : Option String

/-- The function `getHeaders(host, port, credentials, canonicalUri)`
(lines 463-488): throw when host or port is falsy; resolve the keys with
environment fallback and throw when either is falsy; otherwise sign with
service `neptune-db` and the resolved token and region (which are never
checked). -/
def getHeaders (host : Option String) (port : Option Nat) (credentials : JsCreds)
    (env : EnvVars) (canonicalUri : String) : Except JsError SignInput :=
  if !truthyStr host || !truthyPort port then
    Except.error (JsError.error "Host and port are required")
  else
    let accessKeyId := resolvedAccessKeyId credentials env
    let secretAccessKey := resolvedSecretAccessKey credentials env
    let sessionToken := jsOrStr credentials.sessionToken env.awsSessionToken
    let region := jsOrStr credentials.region env.awsDefaultRegion
    if !truthyStr accessKeyId || !truthyStr secretAccessKey then
      Except.error (JsError.error "Access key and secret key are required")
    else
      Except.ok
        { host := host.getD "", port := port.getD 0, region := region,
          path := canonicalUri, service := "neptune-db",
          accessKeyId := accessKeyId, secretAccessKey := secretAccessKey,
          sessionToken := sessionToken }

/-- Claim C10: `getHeaders` fails with the missing-endpoint error whenever
host or port is absent (falsy), regardless of the credentials; with host and
port present it fails with the missing-credentials error exactly when the
argument-then-environment resolution does not yield both a truthy access key
id and a truthy secret access key; and with both keys resolved it succeeds,
whatever the session token and region are. -/
theorem getHeaders_error_classification :
    (∀ host port credentials env uri,
      (truthyStr host = false ∨ truthyPort port = false) →
        getHeaders host port credentials env uri =
          Except.error (JsError.error "Host and port are required")) ∧
    (∀ host port credentials env uri,
      truthyStr host = true → truthyPort port = true →
        (getHeaders host port credentials env uri =
            Except.error (JsError.error "Access key and secret key are required") ↔
          ¬(truthyStr (resolvedAccessKeyId credentials env) = true ∧
            truthyStr (resolvedSecretAccessKey credentials env) = true))) ∧
    (∀ host port credentials env uri,
      truthyStr host = true → truthyPort port = true →
        truthyStr (resolvedAccessKeyId credentials env) = true →
        truthyStr (resolvedSecretAccessKey credentials env) = true →
        ∃ h, getHeaders host port credentials env uri = Except.ok h) := by
  refine ⟨?_, ?_, ?_⟩
  · intro host port credentials env uri hmiss
    rw [getHeaders]
    rcases hmiss with h | h <;> simp [h]
  · intro host port credentials env uri hh hp
    rw [getHeaders]
    simp only [hh, hp, Bool.not_true, Bool.or_self, Bool.false_eq_true, if_false]
    by_cases hak : truthyStr (resolvedAccessKeyId credentials env) = true
    · by_cases hsk : truthyStr (resolvedSecretAccessKey credentials env) = true
      · simp [hak, hsk]
      · simp [hak, hsk]
    · simp [hak]
  · intro host port credentials env uri hh hp hak hsk
    rw [getHeaders]
    simp [hh, hp, hak, hsk]

/-- Empty credentials argument (the source calls `getHeaders` with `{}`). -/
def credsEmpty : JsCreds :=
  { accessKey := none, accessKeyId := none, secretKey := none, secretAccessKey := none,
    sessionToken := none, region := none }

/-- An environment with only the two keys set: no session token, no
region. -/
def envKeysOnly : EnvVars :=
  { awsAccessKeyId := some "AKIA", awsSecretAccessKey := some "SECRET",
    awsSessionToken := none, awsDefaultRegion := none }

/-- An empty environment. -/
def envEmpty : EnvVars :=
  { awsAccessKeyId := none, awsSecretAccessKey := none,
    awsSessionToken := none, awsDefaultRegion := none }

/-- Witness for claim C10 at concrete inputs: a missing host fails with the
endpoint error even with full credentials; present endpoint with no
resolvable keys fails with the credentials error; present endpoint with keys
from the environment succeeds although session token and region are both
absent. -/
theorem getHeaders_error_classification_witness :
    getHeaders none (some 8182) credsEmpty envKeysOnly "/gremlin" =
      Except.error (JsError.error "Host and port are required") ∧
    getHeaders (some "db.example.com") (some 8182) credsEmpty envEmpty "/gremlin" =
      Except.error (JsError.error "Access key and secret key are required") ∧
    ∃ h, getHeaders (some "db.example.com") (some 8182) credsEmpty envKeysOnly "/gremlin" =
      Except.ok h := by
  obtain ⟨h1, h2, h3⟩ := getHeaders_error_classification
  refine ⟨h1 none (some 8182) credsEmpty envKeysOnly "/gremlin" (Or.inl rfl), ?_, ?_⟩
  · exact (h2 (some "db.example.com") (some 8182) credsEmpty envEmpty "/gremlin"
      (by decide) (by decide)).mpr (by decide)
  · exact h3 (some "db.example.com") (some 8182) credsEmpty envKeysOnly "/gremlin"
      (by decide) (by decide) (by decide) (by decide)

end NeptuneGremlin
